import Mathlib

/-!
Verification of the tabular preprocessing helpers in `ml_utils.py` of the
house-price-prediction repository.

The dataframe is shallowly embedded: a dataset is a row count together with an
ordered list of named columns; a column is either a text ("object"-dtype)
column or a numeric column, and each cell is an `Option` value, `none` playing
the role of a missing entry (pandas `NaN` in an object column, `NaN` in a
float column).  Numeric cells are rationals: the Python floats are used here
only through exact arithmetic (quantile interpolation, means, comparisons), so
`ℚ` is a faithful carrier for every computation the claims mention.  A pandas
`NaN` produced by an arithmetic operation on an empty selection (for example
the mean of an all-missing column) is modelled as `none`; a raised Python
exception (`KeyError`, `TypeError`) is modelled with `Except`/`Option`
failure values.
-/

/-- A single dataframe column: an object (text) column or a numeric column.
Each cell is `none` when the entry is missing. -/
inductive Col where
  | obj : List (Option String) → Col
  | num : List (Option ℚ) → Col
deriving DecidableEq

/-- A dataframe: a row count and an ordered list of named columns. -/
structure DataFrame where
  nrows : Nat
  cols : List (String × Col)
deriving DecidableEq

/-- Number of cells stored in a column. -/
def Col.colLength : Col → Nat
  | Col.obj vs => vs.length
  | Col.num vs => vs.length

/-- Whether the column has pandas dtype "O" (object / text). -/
def Col.isObj : Col → Bool
  | Col.obj _ => true
  | Col.num _ => false

/-- pandas `Series.nunique()`: number of distinct non-missing values. -/
def Col.nunique : Col → Nat
  | Col.obj vs => (vs.filterMap id).dedup.length
  | Col.num vs => (vs.filterMap id).dedup.length

/-- The column labels of the dataframe, in order. -/
def DataFrame.names (df : DataFrame) : List String := df.cols.map Prod.fst

/-- pandas `dataframe[name]`: the first column carrying the label, if any. -/
def getCol (df : DataFrame) (name : String) : Option Col :=
  (df.cols.find? (fun c => c.1 == name)).map (fun c => c.2)

/-- pandas `dataframe[name].dtype == "O"` (false when the label is absent). -/
def dtypeIsO (df : DataFrame) (name : String) : Bool :=
  match getCol df name with
  | some c => c.isObj
  | none => false

/-- pandas `dataframe[name].nunique()` (0 when the label is absent). -/
def dfNunique (df : DataFrame) (name : String) : Nat :=
  match getCol df name with
  | some c => c.nunique
  | none => 0

/-- Embedding of `grab_col_names`: split the column labels into categorical,
cardinal-categorical and numerical groups, returning
`(cat_cols, cat_but_car, num_cols)` exactly as the Python comprehensions
build them. -/
def grab_col_names (dataframe : DataFrame) (cat_th car_th : Nat) :
    List String × List String × List String :=
  let categorical_columns := dataframe.names.filter (fun col => dtypeIsO dataframe col)
  let numeric_but_categorical := dataframe.names.filter
    (fun col => decide (dfNunique dataframe col < cat_th) && !dtypeIsO dataframe col)
  let categorical_but_cardinal := dataframe.names.filter
    (fun col => decide (car_th < dfNunique dataframe col) && dtypeIsO dataframe col)
  let cat_cols := (categorical_columns ++ numeric_but_categorical).filter
    (fun col => decide (col ∉ categorical_but_cardinal))
  let num_cols := (dataframe.names.filter (fun col => !dtypeIsO dataframe col)).filter
    (fun col => decide (col ∉ numeric_but_categorical))
  (cat_cols, categorical_but_cardinal, num_cols)

/-- Mean of a list of rationals; `none` on the empty list (pandas returns
`NaN` for the mean of an empty selection). -/
def meanList (l : List ℚ) : Option ℚ :=
  match l with
  | [] => none
  | x :: xs => some ((x :: xs).sum / ((x :: xs).length : ℚ))

/-- pandas `Series.mean()`: mean of the non-missing entries, `NaN` (here
`none`) when every entry is missing. -/
def meanOpt (vs : List (Option ℚ)) : Option ℚ := meanList (vs.filterMap id)

/-- Linear interpolation at fractional position `h` into a sorted list,
matching numpy's indexing `v[⌊h⌋] + (h − ⌊h⌋)·(v[⌊h⌋+1] − v[⌊h⌋])`; the
position is consumed step by step so the recursion is structural. -/
def interpAt : List ℚ → ℚ → ℚ
  | [], _ => 0
  | [a], _ => a
  | a :: b :: rest, h =>
    if h ≤ 0 then a
    else if h < 1 then a + h * (b - a)
    else interpAt (b :: rest) (h - 1)

/-- The non-missing entries of a numeric column, sorted ascending. -/
def sortedPresent (vs : List (Option ℚ)) : List ℚ :=
  List.insertionSort (· ≤ ·) (vs.filterMap id)

/-- pandas `Series.quantile(q)` with the default linear interpolation:
drop the missing entries, sort, and interpolate at position `q·(n−1)`;
`NaN` (here `none`) when no non-missing entry exists. -/
def quantile (vs : List (Option ℚ)) (q : ℚ) : Option ℚ :=
  match sortedPresent vs with
  | [] => none
  | a :: rest => some (interpAt (a :: rest) (q * (((a :: rest).length : ℚ) - 1)))

/-- pandas `Series.median()` is the 0.5 quantile with linear interpolation. -/
def medianOpt (vs : List (Option ℚ)) : Option ℚ := quantile vs (1/2)

/-- Embedding of `outlier_thresholds`.  `dataframe[variable]` on an absent
label raises `KeyError`; `.quantile` on an object column raises `TypeError`;
on a numeric column the two quantiles are `NaN` exactly when the column has
no non-missing value, and then both limits are `NaN` (`none`). -/
def outlier_thresholds (dataframe : DataFrame) (vname : String) (low_quantile up_quantile : ℚ) :
    Except String (Option ℚ × Option ℚ) :=
  match getCol dataframe vname with
  | none => Except.error "KeyError"
  | some (Col.obj _) => Except.error "TypeError"
  | some (Col.num vs) =>
    match quantile vs low_quantile, quantile vs up_quantile with
    | some q1, some q3 =>
      Except.ok (some (q1 - 3/2 * (q3 - q1)), some (q3 + 3/2 * (q3 - q1)))
    | _, _ => Except.ok (none, none)

/-- First winsorizing pass, `dataframe.loc[col < low_limit] = low_limit`:
present values below `low` become `low`; missing entries compare false and
stay missing. -/
def clampLow (low : ℚ) (vs : List (Option ℚ)) : List (Option ℚ) :=
  vs.map (fun o => o.map (fun x => if x < low then low else x))

/-- Second winsorizing pass, `dataframe.loc[col > up_limit] = up_limit`. -/
def clampHigh (high : ℚ) (vs : List (Option ℚ)) : List (Option ℚ) :=
  vs.map (fun o => o.map (fun x => if high < x then high else x))

/-- Apply a transformation to the values of a numeric column (the winsorizer
only ever reaches a numeric column, since `outlier_thresholds` has already
raised on object columns). -/
def mapNumVals (c : Col) (f : List (Option ℚ) → List (Option ℚ)) : Col :=
  match c with
  | Col.num vs => Col.num (f vs)
  | Col.obj vs => Col.obj vs

/-- Embedding of `replace_with_thresholds`: recompute the thresholds, then run
the two in-place clamping passes (modelled as returning the new dataframe).
When the thresholds are `NaN` (`none`) both comparisons are vacuously false
and the dataframe is unchanged. -/
def replace_with_thresholds (dataframe : DataFrame) (vname : String)
    (low_quantile up_quantile : ℚ) : Except String DataFrame :=
  match outlier_thresholds dataframe vname low_quantile up_quantile with
  | Except.error e => Except.error e
  | Except.ok (some low_limit, some up_limit) =>
    Except.ok ⟨dataframe.nrows, dataframe.cols.map (fun c =>
      if c.1 = vname then
        (c.1, mapNumVals c.2 (fun vs => clampHigh up_limit (clampLow low_limit vs)))
      else c)⟩
  | Except.ok (_, _) => Except.ok dataframe

/-- pandas `s.mode()[0]` for an object column: the most frequent non-missing
value; `mode()` returns the maximal-count values sorted ascending, so `[0]`
is the least of them.  `none` models the `KeyError` raised by `[0]` when the
column has no non-missing value at all. -/
def modeVal (vs : List (Option String)) : Option String :=
  let present := vs.filterMap id
  let cands := present.dedup
  let maxCt := (cands.map (fun v => present.count v)).foldr max 0
  match cands.filter (fun v => present.count v == maxCt) with
  | [] => none
  | c :: cs => some (cs.foldl min c)

/-- The categorical pass of `quick_missing_imp` on one column:
`s.fillna(s.mode()[0]) if (s.dtype == "O" and len(s.unique()) <= cat_length
and s.isnull().any()) else s`.  Note `s.unique()` keeps `NaN` as one of the
distinct values, hence `vs.dedup` over the `Option`-valued cells.  `none`
models the `KeyError` from `mode()[0]` on an all-missing object column. -/
def fillCat (cat_length : Nat) : Col → Option Col
  | Col.num vs => some (Col.num vs)
  | Col.obj vs =>
    if vs.dedup.length ≤ cat_length ∧ none ∈ vs then
      match modeVal vs with
      | none => none
      | some m => some (Col.obj (vs.map (fun o => some (o.getD m))))
    else some (Col.obj vs)

/-- The numeric pass of `quick_missing_imp` on one column:
`s.fillna(s.mean() / s.median()) if (s.dtype != "O" and s.isnull().any())
else s`.  When the column is entirely missing the fill value is `NaN` and
`fillna(NaN)` leaves the column unchanged. -/
def fillNum (useMean : Bool) : Col → Col
  | Col.obj vs => Col.obj vs
  | Col.num vs =>
    if none ∈ vs then
      match (if useMean then meanOpt vs else medianOpt vs) with
      | some m => Col.num (vs.map (fun o => some (o.getD m)))
      | none => Col.num vs
    else Col.num vs

/-- `data.apply` of the categorical pass over every column, propagating the
possible `KeyError` of `mode()[0]`. -/
def fillCatCols (cat_length : Nat) : List (String × Col) → Option (List (String × Col))
  | [] => some []
  | c :: rest =>
    match fillCat cat_length c.2, fillCatCols cat_length rest with
    | some c2, some rest2 => some ((c.1, c2) :: rest2)
    | _, _ => none

/-- Embedding of `quick_missing_imp`: work on a copy, save the target column
if present, run the categorical pass then the numeric pass, and finally
write the saved target column back. -/
def quick_missing_imp (data : DataFrame) (num_method : String) (cat_length : Nat)
    (target : String) : Option DataFrame :=
  let temp_target := getCol data target
  match fillCatCols cat_length data.cols with
  | none => none
  | some cols1 =>
    let cols2 := cols1.map (fun c => (c.1, fillNum (num_method == "mean") c.2))
    match temp_target with
    | none => some ⟨data.nrows, cols2⟩
    | some tc => some ⟨data.nrows, cols2.map (fun c => if c.1 = target then (c.1, tc) else c)⟩

/-- Whether the category `s` is rare in the column: its `value_counts`
frequency (missing entries are not counted, the denominator is the full row
count `len(temp_df)`) is strictly below `rare_perc`. -/
def isRareLabel (vs : List (Option String)) (n : Nat) (perc : ℚ) (s : String) : Bool :=
  decide (((vs.count (some s) : ℚ) / (n : ℚ)) < perc)

/-- The `rare_columns` membership test for one column:
`(temp_df[col].value_counts() / len(temp_df) < rare_perc).any()`. -/
def hasRareLabel (vs : List (Option String)) (n : Nat) (perc : ℚ) : Bool :=
  (vs.filterMap id).any (fun s => isRareLabel vs n perc s)

/-- One cell of the `np.where(temp_df[col].isin(rare_labels), "Rare", ...)`
rewrite: a cell holding a rare category becomes `"Rare"`; a missing entry is
never in `rare_labels` (`value_counts` drops it) and stays missing.  The
frequencies are those of the whole column `vs`. -/
def rareCell (vs : List (Option String)) (n : Nat) (perc : ℚ) (o : Option String) :
    Option String :=
  match o with
  | none => none
  | some s => if isRareLabel vs n perc s then some "Rare" else some s

/-- `np.where(temp_df[col].isin(rare_labels), "Rare", temp_df[col])` over the
whole column. -/
def rareTransform (n : Nat) (perc : ℚ) (vs : List (Option String)) : List (Option String) :=
  vs.map (rareCell vs n perc)

/-- The treatment `rare_encoder` gives one named column: an object column in
`rare_columns` is rewritten through `rareTransform`, every other column is
returned as it is. -/
def rareEncodeCol (n : Nat) (perc : ℚ) (c : String × Col) : String × Col :=
  match c.2 with
  | Col.num vs => (c.1, Col.num vs)
  | Col.obj vs =>
    if hasRareLabel vs n perc then (c.1, Col.obj (rareTransform n perc vs))
    else (c.1, Col.obj vs)

/-- Embedding of `rare_encoder`: on a copy, rewrite every object column that
has at least one rare category; numeric columns and object columns without
rare categories are untouched. -/
def rare_encoder (dataframe : DataFrame) (rare_perc : ℚ) : DataFrame :=
  ⟨dataframe.nrows, dataframe.cols.map (rareEncodeCol dataframe.nrows rare_perc)⟩

/-- The distinct non-missing categories of an object column, sorted
ascending, matching the category ordering `pd.get_dummies` uses. -/
def sortedCats (vs : List (Option String)) : List String :=
  List.insertionSort (· ≤ ·) (vs.filterMap id).dedup

/-- The indicator column `pd.get_dummies` derives for one category: 1 where
the cell equals the category, 0 elsewhere (missing cells get 0, since
`dummy_na` defaults to False). -/
def indicatorVals (vs : List (Option String)) (c : String) : List (Option ℚ) :=
  vs.map (fun o => some (if o = some c then 1 else 0))

/-- The dummy columns `pd.get_dummies` creates for one object column, named
`col_value` in sorted category order, the first category dropped when
`drop_first` is set. -/
def dummyCols (name : String) (vs : List (Option String)) (drop_first : Bool) :
    List (String × Col) :=
  let cats := sortedCats vs
  let kept := if drop_first then cats.drop 1 else cats
  kept.map (fun c => (name ++ "_" ++ c, Col.num (indicatorVals vs c)))

/-- Embedding of `one_hot_encoder`, which returns the input unchanged on an
empty column list and otherwise delegates to `pd.get_dummies`: the listed
columns are removed and their dummy columns appended.  `none` models the
`KeyError` `get_dummies` raises on an absent label.  Only object columns are
dummified here: the spec applies the encoder to categorical columns, and a
listed numeric column is carried over unchanged in this model. -/
def one_hot_encoder (dataframe : DataFrame) (categorical_cols : List String)
    (drop_first : Bool) : Option DataFrame :=
  if categorical_cols = [] then some dataframe
  else if categorical_cols.all (fun n => (getCol dataframe n).isSome) then
    some ⟨dataframe.nrows,
      dataframe.cols.filter (fun c => decide (c.1 ∉ categorical_cols)) ++
      categorical_cols.flatMap (fun n =>
        match getCol dataframe n with
        | some (Col.obj vs) => dummyCols n vs drop_first
        | some (Col.num vs) => [(n, Col.num vs)]
        | none => [])⟩
  else none

/-- The numeric value a named column holds at row `i` (0 for a missing cell
or a text column); used to state the per-row sum of indicator columns. -/
def cellValueAt (i : Nat) (c : String × Col) : ℚ :=
  match c.2 with
  | Col.num vs => ((vs.get? i).getD none).getD 0
  | Col.obj _ => 0

/-- Sum of the numeric values stored at row `i` across a list of columns. -/
def rowSumAt (cols : List (String × Col)) (i : Nat) : ℚ :=
  (cols.map (cellValueAt i)).sum

/-- The non-missing target values of the rows belonging to category `c`:
what `frame.groupby(column)[target]` aggregates for the group `c` (pandas
`mean`/`count` both skip missing target values). -/
def groupTargets (cvs : List (Option String)) (tvs : List (Option ℚ)) (c : String) : List ℚ :=
  ((cvs.zip tvs).filter (fun p => p.1 == some c)).filterMap (fun p => p.2)

/-- The smoothed score of one category:
`(count * mean + m * global_mean) / (count + m)` where `count` and `mean`
are the pandas `agg(["mean", "count"])` of the group's target values (both
computed over the non-missing target entries) and a `NaN` group mean or
global mean propagates to a `NaN` score. -/
def smoothCat (cvs : List (Option String)) (tvs : List (Option ℚ)) (m : ℚ)
    (global_mean : Option ℚ) (c : String) : Option ℚ :=
  let tp := groupTargets cvs tvs c
  let cnt : ℚ := (tp.length : ℚ)
  match meanList tp, global_mean with
  | some mn, some g => some ((cnt * mn + m * g) / (cnt + m))
  | _, _ => none

/-- Embedding of `target_mean_encode`: smoothed target-mean scores, one per
distinct non-missing category (`groupby` drops missing keys).  The group
`count` is the number of non-missing target values in the group and the
group `mean` averages those same values; when the group mean or the global
mean is `NaN` the IEEE arithmetic of the smoothing formula yields `NaN`,
modelled as `none`.  `none` overall models the exceptions raised on an
absent label or a non-numeric target. -/
def target_mean_encode (frame : DataFrame) (column : String) (target : String) (m : ℚ) :
    Option (List (String × Option ℚ)) :=
  match getCol frame target, getCol frame column with
  | some (Col.num tvs), some (Col.obj cvs) =>
    let global_mean := meanOpt tvs
    let cats := (cvs.filterMap id).dedup
    some (cats.map (fun c => (c, smoothCat cvs tvs m global_mean c)))
  | _, _ => none

/-- The target mean within one category (over the rows whose target is
present); used to state the smoothing bounds. -/
def categoryTargetMean (cvs : List (Option String)) (tvs : List (Option ℚ)) (c : String) :
    Option ℚ :=
  meanList (groupTargets cvs tvs c)

/-- The smoothed score exactly as the specification sentence words it, for
comparison with the code: `n` is the **row count** of the category (missing
targets included), `mean` the mean of the category's present target values,
`global_mean` the mean of all present target values. -/
def smoothedScoreClaim (cvs : List (Option String)) (tvs : List (Option ℚ)) (m : ℚ)
    (c : String) : ℚ :=
  let n : ℚ := (cvs.count (some c) : ℚ)
  let mn := (meanList (groupTargets cvs tvs c)).getD 0
  let g := (meanOpt tvs).getD 0
  (n * mn + m * g) / (n + m)

/-! ### Helper lemmas -/

theorem find_name_map {l : List (String × Col)} {f : String × Col → String × Col}
    (hf : ∀ c, (f c).1 = c.1) (name : String) :
    List.find? (fun c => c.1 == name) (l.map f)
      = Option.map f (List.find? (fun c => c.1 == name) l) := by
  rw [List.find?_map]
  have hp : ((fun c : String × Col => c.1 == name) ∘ f) = (fun c : String × Col => c.1 == name) := by
    funext c
    simp [Function.comp, hf c]
  rw [hp]

theorem fillCatCols_find (cl : Nat) (name : String) :
    ∀ (cols cols1 : List (String × Col)), fillCatCols cl cols = some cols1 →
      (List.find? (fun c => c.1 == name) cols = none ∧
        List.find? (fun c => c.1 == name) cols1 = none) ∨
      (∃ p c2, List.find? (fun c => c.1 == name) cols = some p ∧ fillCat cl p.2 = some c2 ∧
        List.find? (fun c => c.1 == name) cols1 = some (p.1, c2)) := by
  intro cols
  induction cols with
  | nil =>
    intro cols1 h
    simp [fillCatCols] at h
    subst h
    exact Or.inl ⟨rfl, rfl⟩
  | cons c rest ih =>
    intro cols1 h
    rcases hf : fillCat cl c.2 with _ | c2 <;> rcases hr : fillCatCols cl rest with _ | rest2 <;>
      simp [fillCatCols, hf, hr] at h
    subst h
    by_cases hn : c.1 == name
    · exact Or.inr ⟨c, c2, by simp [List.find?, hn], hf, by simp [List.find?, hn]⟩
    · have := ih rest2 hr
      simp only [List.find?, hn] at *
      exact this

theorem sortedPresent_eq_nil {vs : List (Option ℚ)} (h : vs.filterMap id = []) :
    sortedPresent vs = [] := by
  unfold sortedPresent
  rw [h]
  rfl

theorem sortedPresent_ne_nil {vs : List (Option ℚ)} (h : vs.filterMap id ≠ []) :
    sortedPresent vs ≠ [] := by
  intro hc
  apply h
  unfold sortedPresent at hc
  have := List.perm_insertionSort (· ≤ ·) (vs.filterMap id)
  rw [hc] at this
  exact this.symm.eq_nil

/-! ### C7: `outlier_thresholds` error behaviour -/

/-- Claim C7 — counterexample.  The claim says `outlier_thresholds` fails with
an error whenever the column contains no numeric values from which quantiles
can be computed; but on a numeric column whose entries are all missing, the
pandas quantiles are `NaN` rather than an error, and the function returns the
pair of `NaN` thresholds without failing. -/
theorem outlier_thresholds_claim_counterexample :
    outlier_thresholds ⟨1, [("x", Col.num [none])]⟩ "x" (1/10) (9/10)
        = Except.ok (none, none) ∧
    ∀ e, outlier_thresholds ⟨1, [("x", Col.num [none])]⟩ "x" (1/10) (9/10)
        ≠ Except.error e := by
  refine ⟨rfl, fun e h => ?_⟩
  exact Except.noConfusion h

/-- Claim C7 — amended.  `outlier_thresholds` fails with an error exactly when
the named column is absent (`KeyError`) or is a text column (`TypeError`); on
a numeric column with no non-missing value it does not fail but returns the
undefined (`NaN`, here `none`) threshold pair. -/
theorem outlier_thresholds_error_amended (df : DataFrame) (vname : String) (lq uq : ℚ) :
    ((∃ e, outlier_thresholds df vname lq uq = Except.error e) ↔
      (getCol df vname = none ∨ ∃ vs, getCol df vname = some (Col.obj vs))) ∧
    (∀ vs, getCol df vname = some (Col.num vs) → vs.filterMap id = [] →
      outlier_thresholds df vname lq uq = Except.ok (none, none)) := by
  constructor
  · rcases hcol : getCol df vname with _ | c
    · simp [outlier_thresholds, hcol]
    · cases c with
      | obj vs => simp [outlier_thresholds, hcol]
      | num vs =>
        simp only [outlier_thresholds, hcol]
        constructor
        · rintro ⟨e, he⟩
          rcases h1 : quantile vs lq with _ | q1 <;> rcases h3 : quantile vs uq with _ | q3 <;>
            simp [h1, h3] at he
        · rintro (h | ⟨vs2, h⟩) <;> simp at h
  · intro vs hcol hemp
    have hq : ∀ q : ℚ, quantile vs q = none := by
      intro q
      unfold quantile
      rw [sortedPresent_eq_nil hemp]
    simp [outlier_thresholds, hcol, hq]

/-- Witness for the amended C7 theorem at a concrete dataframe: the column
"x" is numeric and all-missing, so no error is raised and the thresholds are
the undefined pair. -/
theorem outlier_thresholds_error_amended_witness :
    ((∃ e, outlier_thresholds ⟨1, [("x", Col.num [none])]⟩ "x" (1/10) (9/10) = Except.error e) ↔
      (getCol ⟨1, [("x", Col.num [none])]⟩ "x" = none ∨
        ∃ vs, getCol ⟨1, [("x", Col.num [none])]⟩ "x" = some (Col.obj vs))) ∧
    (∀ vs, getCol ⟨1, [("x", Col.num [none])]⟩ "x" = some (Col.num vs) → vs.filterMap id = [] →
      outlier_thresholds ⟨1, [("x", Col.num [none])]⟩ "x" (1/10) (9/10) = Except.ok (none, none)) :=
  outlier_thresholds_error_amended ⟨1, [("x", Col.num [none])]⟩ "x" (1/10) (9/10)

/-! ### C10: `rare_encoder` never touches missing entries -/

/-- Claim C10 — confirmed.  `rare_encoder` never changes a missing entry: in
the embedding the category frequencies are taken over the non-missing values
only (pandas `value_counts` drops `NaN`) while the denominator is the full
row count, a missing cell is never a member of `rare_labels` and so is never
rewritten to "Rare", and the returned column is missing at exactly the same
positions as the input column. -/
theorem rare_encoder_preserves_missing (df : DataFrame) (perc : ℚ) (name : String)
    (vs : List (Option String)) (hcol : getCol df name = some (Col.obj vs)) :
    ∃ vs2, getCol (rare_encoder df perc) name = some (Col.obj vs2) ∧
      vs2.length = vs.length ∧
      ∀ i, vs2.get? i = some none ↔ vs.get? i = some none := by
  classical
  set n := df.nrows with hn
  set f : String × Col → String × Col := rareEncodeCol n perc with hfdef
  have hf : ∀ c, (f c).1 = c.1 := by
    intro c
    rcases c with ⟨nm, c2⟩
    cases c2 with
    | obj ws => simp only [hfdef, rareEncodeCol]; split <;> rfl
    | num ws => rfl
  have hre : rare_encoder df perc = ⟨n, df.cols.map f⟩ := rfl
  rcases hp : df.cols.find? (fun c => c.1 == name) with _ | p
  · rw [getCol, hp] at hcol
    exact absurd hcol (by simp)
  · have hp2 : p.2 = Col.obj vs := by
      rw [getCol, hp] at hcol
      simpa using hcol
    have hfind : (rare_encoder df perc).cols.find? (fun c => c.1 == name) = some (f p) := by
      rw [hre]
      show List.find? _ (df.cols.map f) = _
      rw [find_name_map hf name, hp]
      rfl
    by_cases hr : hasRareLabel vs n perc
    · refine ⟨rareTransform n perc vs, ?_, ?_, ?_⟩
      · rw [getCol, hfind]
        simp [hfdef, rareEncodeCol, hp2, hr]
      · simp [rareTransform]
      · intro i
        unfold rareTransform
        rw [List.get?_map]
        rcases hv : vs.get? i with _ | o
        · simp
        · rcases o with _ | s
          · simp [rareCell]
          · constructor
            · intro hcontr
              simp only [Option.map_some', Option.some_inj, rareCell] at hcontr
              split at hcontr <;> exact Option.noConfusion hcontr
            · intro hcontr
              exact Option.noConfusion (Option.some_inj.mp hcontr)
    · refine ⟨vs, ?_, rfl, fun i => Iff.rfl⟩
      rw [getCol, hfind]
      simp [hfdef, rareEncodeCol, hp2, hr]

/-- Witness for C10 at a concrete dataframe with a rare category and a
missing entry: the missing cell survives the encoding in place. -/
theorem rare_encoder_preserves_missing_witness :
    ∃ vs2, getCol (rare_encoder ⟨3, [("c", Col.obj [some "X", none, some "Y"])]⟩ (1/2)) "c"
        = some (Col.obj vs2) ∧
      vs2.length = ([some "X", none, some "Y"] : List (Option String)).length ∧
      ∀ i, vs2.get? i = some none ↔ ([some "X", none, some "Y"] : List (Option String)).get? i = some none :=
  rare_encoder_preserves_missing ⟨3, [("c", Col.obj [some "X", none, some "Y"])]⟩ (1/2) "c"
    [some "X", none, some "Y"] rfl

/-! ### C1: `quick_missing_imp` preserves the target column -/

/-- Claim C1 — confirmed.  Whenever `quick_missing_imp` returns a dataset,
the designated target column of the result is cell-for-cell the original
target column (missing entries included, and also when the target is
numeric): the function saves the column before the two fill passes and
writes it back afterwards; when the target is absent nothing carries the
target label in the result either.  The caller's dataset is untouched: the
embedding is pure and the Python code operates on `data.copy()`. -/
theorem quick_missing_imp_preserves_target (data : DataFrame) (num_method : String)
    (cat_length : Nat) (target : String) (out : DataFrame)
    (h : quick_missing_imp data num_method cat_length target = some out) :
    getCol out target = getCol data target := by
  unfold quick_missing_imp at h
  rcases hfc : fillCatCols cat_length data.cols with _ | cols1
  · rw [hfc] at h
    exact Option.noConfusion h
  rw [hfc] at h
  simp only at h
  set b := (num_method == "mean") with hb
  set g2 : String × Col → String × Col := fun c => (c.1, fillNum b c.2) with hg2
  have hg2f : ∀ c, (g2 c).1 = c.1 := fun c => rfl
  rcases ht : getCol data target with _ | tc
  · rw [ht] at h
    simp only at h
    have hout : out = ⟨data.nrows, cols1.map g2⟩ := by
      cases h
      rfl
    rcases fillCatCols_find cat_length target data.cols cols1 hfc with
      ⟨hn1, hn2⟩ | ⟨p, c2, hp, _, _⟩
    · rw [hout, getCol]
      show ((cols1.map g2).find? (fun c => c.1 == target)).map _ = _
      rw [find_name_map hg2f target, hn2]
      rfl
    · simp [getCol, hp] at ht
  · rw [ht] at h
    simp only at h
    set g3 : String × Col → String × Col :=
      fun c => if c.1 = target then (c.1, tc) else c with hg3
    have hg3f : ∀ c, (g3 c).1 = c.1 := by
      intro c
      by_cases hc : c.1 = target <;> simp [hg3, hc]
    have hout : out = ⟨data.nrows, (cols1.map g2).map g3⟩ := by
      cases h
      rfl
    rcases fillCatCols_find cat_length target data.cols cols1 hfc with
      ⟨hn1, _⟩ | ⟨p, c2, hp, _, hp1⟩
    · simp [getCol, hn1] at ht
    · have hp1' : (cols1.map g2).find? (fun c => c.1 == target) = some (g2 (p.1, c2)) := by
        rw [find_name_map hg2f target, hp1]
        rfl
      have hptarget : p.1 = target := by
        have := List.find?_some hp
        simpa using this
      rw [hout, getCol]
      show (((cols1.map g2).map g3).find? (fun c => c.1 == target)).map _ = _
      rw [find_name_map hg3f target, hp1']
      simp [hg3, hg2, hptarget, ht]

/-- Witness for C1: a dataset whose numeric target column contains a missing
entry; the imputer succeeds and returns the target column unchanged,
missing entry included. -/
theorem quick_missing_imp_preserves_target_witness :
    quick_missing_imp ⟨2, [("SalePrice", Col.num [some 3, none])]⟩ "median" 17 "SalePrice"
        = some ⟨2, [("SalePrice", Col.num [some 3, none])]⟩ ∧
    getCol ⟨2, [("SalePrice", Col.num [some 3, none])]⟩ "SalePrice"
        = getCol ⟨2, [("SalePrice", Col.num [some 3, none])]⟩ "SalePrice" :=
  ⟨by decide, quick_missing_imp_preserves_target ⟨2, [("SalePrice", Col.num [some 3, none])]⟩
    "median" 17 "SalePrice" ⟨2, [("SalePrice", Col.num [some 3, none])]⟩ (by decide)⟩

/-! ### C6: `grab_col_names` partitions the columns -/

theorem count_filter_eq {p : String → Bool} {l : List String} {a : String} :
    List.count a (l.filter p) = if p a then List.count a l else 0 := by
  by_cases h : p a
  · rw [if_pos h, List.count_filter h]
  · rw [if_neg h]
    rw [List.count_eq_zero]
    intro hm
    exact h (List.mem_filter.mp hm).2

/-- Claim C6 — confirmed.  For a dataset with distinct column labels, the
three lists returned by `grab_col_names` together form a permutation of the
column list: every column appears in exactly one of the lists, none is
missing and none is duplicated.  (The cardinal-exclusion filter inside
`cat_cols` never removes a numeric column, since only object columns can be
cardinal.) -/
theorem grab_col_names_partition (df : DataFrame) (cat_th car_th : Nat)
    (hnd : df.names.Nodup) :
    ((grab_col_names df cat_th car_th).1 ++ (grab_col_names df cat_th car_th).2.1 ++
      (grab_col_names df cat_th car_th).2.2).Perm df.names := by
  classical
  rw [List.perm_iff_count]
  intro s
  unfold grab_col_names
  simp only [List.count_append]
  rw [count_filter_eq, count_filter_eq, count_filter_eq, List.count_append,
    count_filter_eq, count_filter_eq, count_filter_eq]
  have hcar : s ∈ df.names.filter
      (fun col => decide (car_th < dfNunique df col) && dtypeIsO df col) ↔
      (car_th < dfNunique df s ∧ dtypeIsO df s = true ∧ s ∈ df.names) := by
    rw [List.mem_filter]
    constructor
    · rintro ⟨h1, h2⟩
      simp at h2
      exact ⟨h2.1, h2.2, h1⟩
    · rintro ⟨h1, h2, h3⟩
      exact ⟨h3, by simp [h1, h2]⟩
  have hnbc : s ∈ df.names.filter
      (fun col => decide (dfNunique df col < cat_th) && !dtypeIsO df col) ↔
      (dfNunique df s < cat_th ∧ dtypeIsO df s = false ∧ s ∈ df.names) := by
    rw [List.mem_filter]
    constructor
    · rintro ⟨h1, h2⟩
      simp at h2
      exact ⟨h2.1, h2.2, h1⟩
    · rintro ⟨h1, h2, h3⟩
      exact ⟨h3, by simp [h1, h2]⟩
  by_cases hs : s ∈ df.names
  · by_cases hO : dtypeIsO df s = true
    · by_cases hcard : car_th < dfNunique df s
      · simp [hcar, hnbc, hO, hcard, hs]
      · simp [hcar, hnbc, hO, hcard, hs]
    · have hO' : dtypeIsO df s = false := by
        cases h : dtypeIsO df s
        · rfl
        · exact absurd h hO
      by_cases hnc : dfNunique df s < cat_th
      · simp [hcar, hnbc, hO', hnc, hs]
      · simp [hcar, hnbc, hO', hnc, hs]
  · have hz : List.count s df.names = 0 := List.count_eq_zero.mpr hs
    simp [hcar, hnbc, hs, hz]

/-- Witness for C6 on a concrete dataset mixing all four classification
outcomes (cardinal text, ordinary text, numeric, low-cardinality numeric). -/
theorem grab_col_names_partition_witness :
    ((grab_col_names ⟨3, [("o1", Col.obj [some "a", some "b", some "c"]),
        ("o2", Col.obj [some "a", some "a", some "b"]),
        ("n1", Col.num [some 1, some 2, some 3]),
        ("n2", Col.num [some 1, some 1, some 1])]⟩ 2 2).1 ++
      (grab_col_names ⟨3, [("o1", Col.obj [some "a", some "b", some "c"]),
        ("o2", Col.obj [some "a", some "a", some "b"]),
        ("n1", Col.num [some 1, some 2, some 3]),
        ("n2", Col.num [some 1, some 1, some 1])]⟩ 2 2).2.1 ++
      (grab_col_names ⟨3, [("o1", Col.obj [some "a", some "b", some "c"]),
        ("o2", Col.obj [some "a", some "a", some "b"]),
        ("n1", Col.num [some 1, some 2, some 3]),
        ("n2", Col.num [some 1, some 1, some 1])]⟩ 2 2).2.2).Perm
      (DataFrame.names ⟨3, [("o1", Col.obj [some "a", some "b", some "c"]),
        ("o2", Col.obj [some "a", some "a", some "b"]),
        ("n1", Col.num [some 1, some 2, some 3]),
        ("n2", Col.num [some 1, some 1, some 1])]⟩) :=
  grab_col_names_partition ⟨3, [("o1", Col.obj [some "a", some "b", some "c"]),
    ("o2", Col.obj [some "a", some "a", some "b"]),
    ("n1", Col.num [some 1, some 2, some 3]),
    ("n2", Col.num [some 1, some 1, some 1])]⟩ 2 2 (by decide)

/-! ### C4: `rare_encoder` is idempotent -/

theorem rareCell_beq (vs : List (Option String)) (n : Nat) (perc : ℚ) (s : String)
    (hsR : s ≠ "Rare") (hs : isRareLabel vs n perc s = false) (o : Option String) :
    (rareCell vs n perc o == some s) = (o == some s) := by
  rcases o with _ | t
  · rfl
  · by_cases hts : t = s
    · subst hts
      simp [rareCell, hs]
    · simp only [rareCell]
      split
      · simp [Ne.symm hsR, hts]
      · simp [hts]

theorem rareTransform_count (vs : List (Option String)) (n : Nat) (perc : ℚ) (s : String)
    (hsR : s ≠ "Rare") (hs : isRareLabel vs n perc s = false) (l : List (Option String)) :
    (l.map (rareCell vs n perc)).count (some s) = l.count (some s) := by
  induction l with
  | nil => rfl
  | cons o rest ih =>
    simp only [List.map_cons, List.count_cons, ih, rareCell_beq vs n perc s hsR hs o]

theorem rareTransform_mem (vs : List (Option String)) (n : Nat) (perc : ℚ) (s : String)
    (hsR : s ≠ "Rare") (hmem : some s ∈ rareTransform n perc vs) :
    isRareLabel vs n perc s = false ∧ some s ∈ vs := by
  rcases List.mem_map.mp hmem with ⟨o, ho, heq⟩
  rcases o with _ | t
  · exact absurd heq (by simp [rareCell])
  · simp only [rareCell] at heq
    split at heq
    · rw [Option.some_inj] at heq
      exact absurd heq.symm hsR
    · rw [Option.some_inj] at heq
      subst heq
      constructor
      · rename_i hfalse
        exact Bool.eq_false_iff.mpr hfalse
      · exact ho

theorem rareTransform_idem (n : Nat) (perc : ℚ) (vs : List (Option String)) :
    rareTransform n perc (rareTransform n perc vs) = rareTransform n perc vs := by
  unfold rareTransform
  rw [show (List.map (rareCell vs n perc) vs).map
      (rareCell (List.map (rareCell vs n perc) vs) n perc)
    = (List.map (rareCell vs n perc) vs).map id from ?_, List.map_id]
  apply List.map_congr_left
  intro o ho
  rcases o with _ | t
  · rfl
  · by_cases htR : t = "Rare"
    · subst htR
      simp only [rareCell, id]
      split <;> rfl
    · have hmem := rareTransform_mem vs n perc t htR (by exact ho)
      have hcount : (List.map (rareCell vs n perc) vs).count (some t) = vs.count (some t) :=
        rareTransform_count vs n perc t htR hmem.1 vs
      have hrare2 : isRareLabel (List.map (rareCell vs n perc) vs) n perc t = false := by
        unfold isRareLabel at hmem ⊢
        rw [hcount]
        exact hmem.1
      simp [rareCell, hrare2, id]

/-- Claim C4 — confirmed.  `rare_encoder` is idempotent: applying it to its
own output changes no value.  After the first pass every surviving category
other than "Rare" kept its original count, so its frequency is still at or
above the threshold; and a "Rare" label that itself falls below the
threshold is merely rewritten to "Rare" again, an idempotent merge. -/
theorem rare_encoder_idempotent (dataframe : DataFrame) (rare_perc : ℚ) :
    rare_encoder (rare_encoder dataframe rare_perc) rare_perc
      = rare_encoder dataframe rare_perc := by
  unfold rare_encoder
  simp only [List.map_map]
  refine congrArg (DataFrame.mk dataframe.nrows) ?_
  apply List.map_congr_left
  intro c _
  show rareEncodeCol dataframe.nrows rare_perc (rareEncodeCol dataframe.nrows rare_perc c)
    = rareEncodeCol dataframe.nrows rare_perc c
  rcases c with ⟨nm, c2⟩
  cases c2 with
  | num ws => rfl
  | obj ws =>
    by_cases hr : hasRareLabel ws dataframe.nrows rare_perc
    · have h1 : rareEncodeCol dataframe.nrows rare_perc (nm, Col.obj ws)
          = (nm, Col.obj (rareTransform dataframe.nrows rare_perc ws)) := by
        simp [rareEncodeCol, hr]
      rw [h1]
      by_cases hr2 : hasRareLabel (rareTransform dataframe.nrows rare_perc ws)
          dataframe.nrows rare_perc
      · simp [rareEncodeCol, hr2, rareTransform_idem]
      · simp [rareEncodeCol, hr2]
    · simp [rareEncodeCol, hr]

/-! ### C2: which columns `quick_missing_imp` fills -/

/-- Claim C2 — counterexample.  The claim measures a text column's
cardinality by its distinct-value count *ignoring missing entries*, but the
code tests `len(s.unique()) <= cat_length` and `Series.unique` keeps `NaN`
as one of the distinct values.  In this dataset with `cat_length = 2`:
column "a" has 2 distinct non-missing values (within the limit, so the
claim says it must come back complete) yet `len(unique) = 3` makes the code
skip it; the numeric column "b" is all-missing, so the median fill is
`fillna(NaN)` and does nothing; and the text target "t" is low-cardinality
but is restored to its original content, missing entry included.  The
function in fact returns the dataset unchanged, and all three columns still
contain missing values. -/
theorem quick_missing_imp_claim_counterexample :
    quick_missing_imp ⟨3, [("a", Col.obj [some "x", some "y", none]),
        ("b", Col.num [none, none, none]),
        ("t", Col.obj [some "p", some "p", none])]⟩ "median" 2 "t"
      = some ⟨3, [("a", Col.obj [some "x", some "y", none]),
        ("b", Col.num [none, none, none]),
        ("t", Col.obj [some "p", some "p", none])]⟩ ∧
    (([some "x", some "y", none] : List (Option String)).filterMap id).dedup.length = 2 ∧
    (none ∈ ([some "x", some "y", none] : List (Option String))) ∧
    (none ∈ ([none, none, none] : List (Option ℚ))) := by
  refine ⟨by decide, by decide, by decide, by decide⟩

theorem fillNum_no_missing (useMean : Bool) (vs : List (Option ℚ))
    (hne : vs.filterMap id ≠ []) :
    ∃ vs2, fillNum useMean (Col.num vs) = Col.num vs2 ∧ none ∉ vs2 := by
  simp only [fillNum]
  by_cases hmem : none ∈ vs
  · rw [if_pos hmem]
    have hmean : ∃ mv, meanOpt vs = some mv := by
      unfold meanOpt meanList
      rcases hfm : vs.filterMap id with _ | ⟨x, xs⟩
      · exact absurd hfm hne
      · exact ⟨_, rfl⟩
    have hmed : ∃ mv, medianOpt vs = some mv := by
      unfold medianOpt quantile
      rcases hsp : sortedPresent vs with _ | ⟨a, rest⟩
      · exact absurd hsp (sortedPresent_ne_nil hne)
      · exact ⟨_, rfl⟩
    rcases hmean with ⟨m1, hm1⟩
    rcases hmed with ⟨m2, hm2⟩
    cases useMean with
    | true =>
      rw [if_pos rfl, hm1]
      refine ⟨_, rfl, ?_⟩
      intro hc
      rcases List.mem_map.mp hc with ⟨o, _, heq⟩
      exact Option.noConfusion heq
    | false =>
      rw [if_neg (by simp), hm2]
      refine ⟨_, rfl, ?_⟩
      intro hc
      rcases List.mem_map.mp hc with ⟨o, _, heq⟩
      exact Option.noConfusion heq
  · rw [if_neg hmem]
    exact ⟨vs, rfl, hmem⟩

theorem fillCat_no_missing (cat_length : Nat) (vs : List (Option String)) (c2 : Col)
    (hlen : vs.dedup.length ≤ cat_length) (hres : fillCat cat_length (Col.obj vs) = some c2) :
    ∃ vs2, c2 = Col.obj vs2 ∧ none ∉ vs2 := by
  simp only [fillCat] at hres
  by_cases hmem : none ∈ vs
  · rw [if_pos ⟨hlen, hmem⟩] at hres
    rcases hmode : modeVal vs with _ | m
    · rw [hmode] at hres
      exact Option.noConfusion hres
    · rw [hmode] at hres
      rw [Option.some_inj] at hres
      refine ⟨_, hres.symm, ?_⟩
      intro hc
      rcases List.mem_map.mp hc with ⟨o, _, heq⟩
      exact Option.noConfusion heq
  · have : ¬(vs.dedup.length ≤ cat_length ∧ none ∈ vs) := fun hc => hmem hc.2
    rw [if_neg this, Option.some_inj] at hres
    exact ⟨vs, hres.symm, hmem⟩

/-- Claim C2 — amended.  When `quick_missing_imp` returns a dataset: every
non-target text column whose distinct-value count *with a missing entry
counted as one further distinct value* (`len(s.unique())`) is at most
`cat_length` comes back with no missing values, and every non-target
numeric column having at least one non-missing entry comes back with no
missing values.  (The counterexample forces the three amendments: the
cardinality test includes the missing marker, an all-missing numeric column
stays missing, and the restored target column is exempt even when it is a
text column.) -/
theorem quick_missing_imp_fills_amended (data : DataFrame) (num_method : String)
    (cat_length : Nat) (target : String) (out : DataFrame)
    (h : quick_missing_imp data num_method cat_length target = some out) :
    (∀ name vs, name ≠ target → getCol data name = some (Col.obj vs) →
      vs.dedup.length ≤ cat_length →
      ∃ vs2, getCol out name = some (Col.obj vs2) ∧ none ∉ vs2) ∧
    (∀ name vs, name ≠ target → getCol data name = some (Col.num vs) →
      vs.filterMap id ≠ [] →
      ∃ vs2, getCol out name = some (Col.num vs2) ∧ none ∉ vs2) := by
  unfold quick_missing_imp at h
  rcases hfc : fillCatCols cat_length data.cols with _ | cols1
  · rw [hfc] at h
    exact Option.noConfusion h
  rw [hfc] at h
  simp only at h
  set b := (num_method == "mean") with hb
  set g2 : String × Col → String × Col := fun c => (c.1, fillNum b c.2) with hg2
  have hg2f : ∀ c, (g2 c).1 = c.1 := fun c => rfl
  have key : ∀ name c0, name ≠ target →
      getCol data name = some c0 →
      ∃ c2, fillCat cat_length c0 = some c2 ∧ getCol out name = some (fillNum b c2) := by
    intro name c0 hne hcol
    rcases fillCatCols_find cat_length name data.cols cols1 hfc with
      ⟨hn1, _⟩ | ⟨p, c2, hp, hfill, hp1⟩
    · simp [getCol, hn1] at hcol
    · have hp2 : p.2 = c0 := by
        rw [getCol, hp] at hcol
        simpa using hcol
      refine ⟨c2, hp2 ▸ hfill, ?_⟩
      have hfind2 : (cols1.map g2).find? (fun c => c.1 == name) = some (g2 (p.1, c2)) := by
        rw [find_name_map hg2f name, hp1]
        rfl
      rcases ht : getCol data target with _ | tc
      · rw [ht] at h
        simp only at h
        have hout : out = ⟨data.nrows, cols1.map g2⟩ := by
          cases h
          rfl
        rw [hout, getCol]
        show ((cols1.map g2).find? (fun c => c.1 == name)).map _ = _
        rw [hfind2]
        rfl
      · rw [ht] at h
        simp only at h
        set g3 : String × Col → String × Col :=
          fun c => if c.1 = target then (c.1, tc) else c with hg3
        have hg3f : ∀ c, (g3 c).1 = c.1 := by
          intro c
          by_cases hc : c.1 = target <;> simp [hg3, hc]
        have hout : out = ⟨data.nrows, (cols1.map g2).map g3⟩ := by
          cases h
          rfl
        have hpname : p.1 = name := by
          have := List.find?_some hp
          simpa using this
        rw [hout, getCol]
        show (((cols1.map g2).map g3).find? (fun c => c.1 == name)).map _ = _
        rw [find_name_map hg3f name, hfind2]
        simp [hg3, hg2, hpname, hne]
  constructor
  · intro name vs hne hcol hlen
    rcases key name (Col.obj vs) hne hcol with ⟨c2, hfill, hget⟩
    rcases fillCat_no_missing cat_length vs c2 hlen hfill with ⟨vs2, hc2, hnomiss⟩
    subst hc2
    exact ⟨vs2, by simpa [fillNum] using hget, hnomiss⟩
  · intro name vs hne hcol hne2
    rcases key name (Col.num vs) hne hcol with ⟨c2, hfill, hget⟩
    have hc2 : c2 = Col.num vs := by
      simp only [fillCat] at hfill
      rw [Option.some_inj] at hfill
      exact hfill.symm
    subst hc2
    rcases fillNum_no_missing b vs hne2 with ⟨vs2, hfn, hnomiss⟩
    rw [hfn] at hget
    exact ⟨vs2, hget, hnomiss⟩

/-- Witness for the amended C2 theorem: the low-cardinality text column
(whose `unique` count, missing included, is 2 ≤ 2) is filled with its mode,
and the numeric column with one present value is filled with its median. -/
theorem quick_missing_imp_fills_amended_witness :
    quick_missing_imp ⟨2, [("s", Col.obj [some "u", none]),
        ("n", Col.num [some 7, none]), ("t", Col.num [some 1, some 2])]⟩ "median" 2 "t"
      = some ⟨2, [("s", Col.obj [some "u", some "u"]),
        ("n", Col.num [some 7, some 7]), ("t", Col.num [some 1, some 2])]⟩ ∧
    ((∀ name vs, name ≠ "t" →
      getCol ⟨2, [("s", Col.obj [some "u", none]),
        ("n", Col.num [some 7, none]), ("t", Col.num [some 1, some 2])]⟩ name
          = some (Col.obj vs) →
      vs.dedup.length ≤ 2 →
      ∃ vs2, getCol ⟨2, [("s", Col.obj [some "u", some "u"]),
        ("n", Col.num [some 7, some 7]), ("t", Col.num [some 1, some 2])]⟩ name
          = some (Col.obj vs2) ∧ none ∉ vs2) ∧
    (∀ name vs, name ≠ "t" →
      getCol ⟨2, [("s", Col.obj [some "u", none]),
        ("n", Col.num [some 7, none]), ("t", Col.num [some 1, some 2])]⟩ name
          = some (Col.num vs) →
      vs.filterMap id ≠ [] →
      ∃ vs2, getCol ⟨2, [("s", Col.obj [some "u", some "u"]),
        ("n", Col.num [some 7, some 7]), ("t", Col.num [some 1, some 2])]⟩ name
          = some (Col.num vs2) ∧ none ∉ vs2)) :=
  ⟨by decide, quick_missing_imp_fills_amended ⟨2, [("s", Col.obj [some "u", none]),
    ("n", Col.num [some 7, none]), ("t", Col.num [some 1, some 2])]⟩ "median" 2 "t"
    ⟨2, [("s", Col.obj [some "u", some "u"]),
      ("n", Col.num [some 7, some 7]), ("t", Col.num [some 1, some 2])]⟩ (by decide)⟩

/-! ### C3: `replace_with_thresholds` clamps into the threshold interval -/

theorem interpAt_ge_head (a : ℚ) (l : List ℚ) (hsort : List.Sorted (· ≤ ·) (a :: l))
    (h : ℚ) (hh : 0 ≤ h) : a ≤ interpAt (a :: l) h := by
  induction l generalizing a h with
  | nil => exact le_of_eq rfl
  | cons b rest ih =>
    have hab : a ≤ b := (List.sorted_cons.mp hsort).1 b (by simp)
    unfold interpAt
    by_cases h0 : h ≤ 0
    · rw [if_pos h0]
    · rw [if_neg h0]
      by_cases h1 : h < 1
      · rw [if_pos h1]
        nlinarith
      · rw [if_neg h1]
        have := ih b (List.sorted_cons.mp hsort).2 (h - 1) (by linarith)
        linarith

theorem interpAt_mono (l : List ℚ) (hsort : List.Sorted (· ≤ ·) l)
    (h1 h2 : ℚ) (hh1 : 0 ≤ h1) (hh12 : h1 ≤ h2) :
    interpAt l h1 ≤ interpAt l h2 := by
  induction l generalizing h1 h2 with
  | nil => exact le_of_eq rfl
  | cons a l ih =>
    cases l with
    | nil => exact le_of_eq rfl
    | cons b rest =>
      have hab : a ≤ b := (List.sorted_cons.mp hsort).1 b (by simp)
      have hsort2 : List.Sorted (· ≤ ·) (b :: rest) := (List.sorted_cons.mp hsort).2
      by_cases hA : h1 ≤ 0
      · have : interpAt (a :: b :: rest) h1 = a := by
          rw [interpAt, if_pos hA]
        rw [this]
        exact interpAt_ge_head a (b :: rest) hsort h2 (le_trans hh1 hh12)
      · have hB : ¬ h2 ≤ 0 := fun hc => hA (le_trans hh12 hc)
        by_cases hC : h1 < 1
        · have e1 : interpAt (a :: b :: rest) h1 = a + h1 * (b - a) := by
            rw [interpAt, if_neg hA, if_pos hC]
          by_cases hD : h2 < 1
          · have e2 : interpAt (a :: b :: rest) h2 = a + h2 * (b - a) := by
              rw [interpAt, if_neg hB, if_pos hD]
            rw [e1, e2]
            nlinarith
          · have e2 : interpAt (a :: b :: rest) h2 = interpAt (b :: rest) (h2 - 1) := by
              rw [interpAt, if_neg hB, if_neg hD]
            rw [e1, e2]
            have hge : b ≤ interpAt (b :: rest) (h2 - 1) :=
              interpAt_ge_head b rest hsort2 (h2 - 1) (by linarith)
            nlinarith
        · have hD : ¬ h2 < 1 := fun hc => hC (lt_of_le_of_lt hh12 hc)
          have e1 : interpAt (a :: b :: rest) h1 = interpAt (b :: rest) (h1 - 1) := by
            rw [interpAt, if_neg hA, if_neg hC]
          have e2 : interpAt (a :: b :: rest) h2 = interpAt (b :: rest) (h2 - 1) := by
            rw [interpAt, if_neg hB, if_neg hD]
          rw [e1, e2]
          exact ih hsort2 (h1 - 1) (h2 - 1) (by linarith) (by linarith)

theorem quantile_mono (vs : List (Option ℚ)) (qa qb va vb : ℚ)
    (h0 : 0 ≤ qa) (hab : qa ≤ qb)
    (ha : quantile vs qa = some va) (hb : quantile vs qb = some vb) : va ≤ vb := by
  unfold quantile at ha hb
  rcases hsp : sortedPresent vs with _ | ⟨a, rest⟩ <;> rw [hsp] at ha hb
  · exact Option.noConfusion ha
  · rw [Option.some_inj] at ha hb
    subst ha
    subst hb
    have hsort : List.Sorted (· ≤ ·) (a :: rest) := by
      have := List.sorted_insertionSort (· ≤ ·) (vs.filterMap id)
      rw [show List.insertionSort (· ≤ ·) (vs.filterMap id) = sortedPresent vs from rfl,
        hsp] at this
      exact this
    have hlen : (1 : ℚ) ≤ ((a :: rest).length : ℚ) := by
      have : 1 ≤ (a :: rest).length := by simp
      exact_mod_cast this
    have hpos : 0 ≤ ((a :: rest).length : ℚ) - 1 := by linarith
    apply interpAt_mono (a :: rest) hsort
    · exact mul_nonneg h0 hpos
    · exact mul_le_mul_of_nonneg_right hab hpos

/-- Claim C3 — confirmed.  After `replace_with_thresholds` with quantiles
0.10 and 0.90, every present value of the treated numeric column lies in the
closed interval `[low, high]` computed by `outlier_thresholds`, in-range
values are unchanged, values below `low` become `low`, and values above
`high` become `high` (missing entries stay missing: a `NaN` compares false
on both sides). -/
theorem replace_with_thresholds_clamps (df : DataFrame) (vname : String)
    (vs : List (Option ℚ)) (low high : ℚ) (out : DataFrame)
    (hcol : getCol df vname = some (Col.num vs))
    (hth : outlier_thresholds df vname (1/10) (9/10) = Except.ok (some low, some high))
    (hrep : replace_with_thresholds df vname (1/10) (9/10) = Except.ok out) :
    ∃ vs2, getCol out vname = some (Col.num vs2) ∧ vs2.length = vs.length ∧
      ∀ i x, vs.get? i = some (some x) →
        ∃ y, vs2.get? i = some (some y) ∧
          low ≤ y ∧ y ≤ high ∧
          (low ≤ x → x ≤ high → y = x) ∧ (x < low → y = low) ∧ (high < x → y = high) := by
  classical
  have hlohi : low ≤ high := by
    have hth2 := hth
    simp only [outlier_thresholds, hcol] at hth2
    rcases hq1 : quantile vs (1/10) with _ | q1 <;>
      rcases hq3 : quantile vs (9/10) with _ | q3 <;>
      rw [hq1, hq3] at hth2 <;> simp at hth2
    have hmono : q1 ≤ q3 := quantile_mono vs (1/10) (9/10) q1 q3 (by norm_num)
      (by norm_num) hq1 hq3
    obtain ⟨h1, h2⟩ := hth2
    linarith [h1, h2]
  unfold replace_with_thresholds at hrep
  rw [hth] at hrep
  simp only at hrep
  rw [Except.ok.injEq] at hrep
  set f : String × Col → String × Col := fun c =>
    if c.1 = vname then
      (c.1, mapNumVals c.2 (fun ws => clampHigh high (clampLow low ws)))
    else c with hfdef
  have hf : ∀ c, (f c).1 = c.1 := by
    intro c
    by_cases hc : c.1 = vname <;> simp [hfdef, hc]
  have hout : out = ⟨df.nrows, df.cols.map f⟩ := hrep.symm
  rcases hp : df.cols.find? (fun c => c.1 == vname) with _ | p
  · simp [getCol, hp] at hcol
  have hp2 : p.2 = Col.num vs := by
    rw [getCol, hp] at hcol
    simpa using hcol
  have hpname : p.1 = vname := by
    have := List.find?_some hp
    simpa using this
  refine ⟨clampHigh high (clampLow low vs), ?_, by simp [clampHigh, clampLow], ?_⟩
  · rw [hout, getCol]
    show ((df.cols.map f).find? (fun c => c.1 == vname)).map _ = _
    rw [find_name_map hf vname, hp]
    simp [hfdef, hpname, hp2, mapNumVals]
  · intro i x hx
    refine ⟨if x < low then low else if high < x then high else x, ?_, ?_, ?_, ?_, ?_, ?_⟩
    · unfold clampHigh clampLow
      rw [List.get?_map, List.get?_map, hx]
      simp only [Option.map_some']
      by_cases h1 : x < low
      · rw [if_pos h1]
        have hnl : ¬ high < low := not_lt.mpr hlohi
        simp [hnl, h1]
      · rw [if_neg h1]
        by_cases h2 : high < x
        · simp [h1, h2]
        · simp [h1, h2]
    · split
      · exact le_refl low
      · split
        · exact hlohi
        · rename_i h1 _
          exact not_lt.mp h1
    · split
      · exact hlohi
      · split
        · exact le_refl high
        · rename_i h2
          exact not_lt.mp h2
    · intro hxl hxh
      rw [if_neg (not_lt.mpr hxl), if_neg (not_lt.mpr hxh)]
    · intro hxl
      rw [if_pos hxl]
    · intro hxh
      rw [if_neg (not_lt.mpr (le_trans hlohi (le_of_lt hxh))), if_pos hxh]

/-- Witness for C3 on the column `[0, 10]`: the 0.10/0.90 quantiles are 1 and
9, the thresholds are −11 and 21, and clamping leaves both in-range values
unchanged. -/
theorem replace_with_thresholds_clamps_witness :
    getCol ⟨2, [("x", Col.num [some 0, some 10])]⟩ "x" = some (Col.num [some 0, some 10]) ∧
    outlier_thresholds ⟨2, [("x", Col.num [some 0, some 10])]⟩ "x" (1/10) (9/10)
      = Except.ok (some (-11), some 21) ∧
    replace_with_thresholds ⟨2, [("x", Col.num [some 0, some 10])]⟩ "x" (1/10) (9/10)
      = Except.ok ⟨2, [("x", Col.num [some 0, some 10])]⟩ ∧
    (∃ vs2, getCol ⟨2, [("x", Col.num [some 0, some 10])]⟩ "x" = some (Col.num vs2) ∧
      vs2.length = ([some (0:ℚ), some 10] : List (Option ℚ)).length ∧
      ∀ i x, ([some (0:ℚ), some 10] : List (Option ℚ)).get? i = some (some x) →
        ∃ y, vs2.get? i = some (some y) ∧
          (-11 : ℚ) ≤ y ∧ y ≤ 21 ∧
          ((-11 : ℚ) ≤ x → x ≤ 21 → y = x) ∧ (x < -11 → y = -11) ∧ (21 < x → y = 21)) := by
  have h1 : getCol ⟨2, [("x", Col.num [some 0, some 10])]⟩ "x"
      = some (Col.num [some 0, some 10]) := rfl
  have h2 : outlier_thresholds ⟨2, [("x", Col.num [some 0, some 10])]⟩ "x" (1/10) (9/10)
      = Except.ok (some (-11), some 21) := by
    norm_num [outlier_thresholds, getCol, quantile, sortedPresent, interpAt,
      List.insertionSort, List.orderedInsert, List.find?]
  have h3 : replace_with_thresholds ⟨2, [("x", Col.num [some 0, some 10])]⟩ "x" (1/10) (9/10)
      = Except.ok ⟨2, [("x", Col.num [some 0, some 10])]⟩ := by
    rw [replace_with_thresholds, h2]
    norm_num [clampLow, clampHigh, mapNumVals]
  exact ⟨h1, h2, h3, replace_with_thresholds_clamps ⟨2, [("x", Col.num [some 0, some 10])]⟩
    "x" [some 0, some 10] (-11) 21 ⟨2, [("x", Col.num [some 0, some 10])]⟩ h1 h2 h3⟩

/-! ### C5: `one_hot_encoder` -/

/-- Claim C5 — counterexample.  With `drop_first` unset, `pd.get_dummies`
gives a row whose entry is missing an all-zero indicator vector
(`dummy_na` defaults to False), so the indicator columns do not sum to 1 in
every row: on the column `["A", missing]` the single indicator column
`c_A` reads `[1, 0]` and row 1 sums to 0, not 1. -/
theorem one_hot_encoder_claim_counterexample :
    one_hot_encoder ⟨2, [("c", Col.obj [some "A", none])]⟩ ["c"] false
      = some ⟨2, [("c_A", Col.num [some 1, some 0])]⟩ ∧
    rowSumAt [("c_A", Col.num [some (1:ℚ), some 0])] 1 = 0 ∧
    (0 : ℚ) ≠ 1 := by
  refine ⟨by decide, by norm_num [rowSumAt, cellValueAt], by norm_num⟩

theorem sum_indicator_count (s : String) (l : List String) :
    (l.map (fun c => if (some s : Option String) = some c then (1:ℚ) else 0)).sum
      = (l.count s : ℚ) := by
  induction l with
  | nil => simp
  | cons c rest ih =>
    simp only [List.map_cons, List.sum_cons, List.count_cons, ih]
    rcases eq_or_ne c s with hcs | hcs
    · subst hcs
      push_cast
      simp [add_comm]
    · push_cast
      simp [hcs, Ne.symm hcs]

theorem sortedCats_props (vs : List (Option String)) :
    (sortedCats vs).Nodup ∧ (sortedCats vs).length = (vs.filterMap id).dedup.length ∧
    ∀ s, s ∈ sortedCats vs ↔ s ∈ vs.filterMap id := by
  have hperm := List.perm_insertionSort (· ≤ ·) (vs.filterMap id).dedup
  refine ⟨hperm.nodup_iff.mpr (List.nodup_dedup _), hperm.length_eq, ?_⟩
  intro s
  rw [show sortedCats vs = List.insertionSort (· ≤ ·) (vs.filterMap id).dedup from rfl]
  rw [hperm.mem_iff, List.mem_dedup]

/-- Claim C5 — amended.  When `one_hot_encoder` succeeds on a listed text
column: with `drop_first` set it produces `k − 1` indicator columns where
`k` counts the *distinct non-missing* values; with `drop_first` unset the
indicator columns sum to 1 in every row whose entry is present (a row with
a missing entry sums to 0, which the counterexample exhibits); the block of
indicator columns appears in the returned dataframe; and on an empty column
list the input dataframe is returned unchanged (the embedding is pure, so
the caller's dataframe is never mutated). -/
theorem one_hot_encoder_amended (df : DataFrame) (cs : List String) (b : Bool)
    (name : String) (vs : List (Option String)) (out : DataFrame)
    (h : one_hot_encoder df cs b = some out) (hmem : name ∈ cs)
    (hcol : getCol df name = some (Col.obj vs)) :
    (one_hot_encoder df ([] : List String) b = some df) ∧
    (b = true → (dummyCols name vs b).length = (vs.filterMap id).dedup.length - 1) ∧
    (b = false → ∀ i s, vs.get? i = some (some s) →
      rowSumAt (dummyCols name vs b) i = 1) ∧
    (dummyCols name vs b).Sublist out.cols := by
  classical
  obtain ⟨hnodup, hlen, hmemiff⟩ := sortedCats_props vs
  refine ⟨rfl, ?_, ?_, ?_⟩
  · intro hb
    subst hb
    have hd : (dummyCols name vs true).length = (sortedCats vs).length - 1 := by
      simp [dummyCols]
    rw [hd, hlen]
  · intro hb i s hrow
    subst hb
    have hd : dummyCols name vs false
        = (sortedCats vs).map (fun c => (name ++ "_" ++ c, Col.num (indicatorVals vs c))) := by
      simp [dummyCols]
    rw [hd]
    unfold rowSumAt
    rw [List.map_map]
    have hmap : (sortedCats vs).map (cellValueAt i ∘
        (fun c => (name ++ "_" ++ c, Col.num (indicatorVals vs c))))
        = (sortedCats vs).map
          (fun c => if (some s : Option String) = some c then (1:ℚ) else 0) := by
      apply List.map_congr_left
      intro c _
      show cellValueAt i (name ++ "_" ++ c, Col.num (indicatorVals vs c)) = _
      have hred : cellValueAt i (name ++ "_" ++ c, Col.num (indicatorVals vs c))
          = (((indicatorVals vs c).get? i).getD none).getD 0 := rfl
      rw [hred]
      unfold indicatorVals
      rw [List.get?_map, hrow]
      simp
    rw [hmap, sum_indicator_count]
    have hs : s ∈ sortedCats vs := by
      apply (hmemiff s).mpr
      apply List.mem_filterMap.mpr
      exact ⟨some s, List.get?_mem hrow, rfl⟩
    rw [List.count_eq_one_of_mem hnodup hs]
    norm_num
  · rcases List.append_of_mem hmem with ⟨l1, l2, hcs⟩
    have hcsne : cs ≠ [] := by
      intro hc
      rw [hc] at hmem
      exact absurd hmem (List.not_mem_nil name)
    unfold one_hot_encoder at h
    rw [if_neg hcsne] at h
    by_cases hall : cs.all (fun n => (getCol df n).isSome)
    · rw [if_pos hall] at h
      rw [Option.some_inj] at h
      rw [← h]
      set F : String → List (String × Col) := fun n =>
        match getCol df n with
        | some (Col.obj ws) => dummyCols n ws b
        | some (Col.num ws) => [(n, Col.num ws)]
        | none => [] with hF
      show (dummyCols name vs b).Sublist
        (df.cols.filter (fun c => decide (c.1 ∉ cs)) ++ cs.flatMap F)
      have hFname : F name = dummyCols name vs b := by
        rw [hF]
        simp only [hcol]
      have hflat : cs.flatMap F
          = l1.flatMap F ++ (dummyCols name vs b ++ l2.flatMap F) := by
        rw [hcs, List.flatMap_append, List.flatMap_cons, hFname]
      rw [hflat]
      have h1 : (dummyCols name vs b).Sublist (dummyCols name vs b ++ l2.flatMap F) :=
        List.sublist_append_left _ _
      have h2 := h1.trans (List.sublist_append_right (l1.flatMap F)
        (dummyCols name vs b ++ l2.flatMap F))
      exact h2.trans (List.sublist_append_right _ _)
    · rw [if_neg hall] at h
      exact Option.noConfusion h

/-- Witness for the amended C5 theorem on the single-category column
`["A"]` with `drop_first` unset: the encoder succeeds and the indicator
block sums to 1 on the present row. -/
theorem one_hot_encoder_amended_witness :
    one_hot_encoder ⟨1, [("c", Col.obj [some "A"])]⟩ ["c"] false
      = some ⟨1, [("c_A", Col.num [some 1])]⟩ ∧
    ((one_hot_encoder ⟨1, [("c", Col.obj [some "A"])]⟩ ([] : List String) false
      = some ⟨1, [("c", Col.obj [some "A"])]⟩) ∧
    (false = true → (dummyCols "c" [some "A"] false).length
      = (([some "A"] : List (Option String)).filterMap id).dedup.length - 1) ∧
    (false = false → ∀ i s, ([some "A"] : List (Option String)).get? i = some (some s) →
      rowSumAt (dummyCols "c" [some "A"] false) i = 1) ∧
    (dummyCols "c" [some "A"] false).Sublist
      (⟨1, [("c_A", Col.num [some 1])]⟩ : DataFrame).cols) :=
  ⟨by decide, one_hot_encoder_amended ⟨1, [("c", Col.obj [some "A"])]⟩ ["c"] false "c"
    [some "A"] ⟨1, [("c_A", Col.num [some 1])]⟩ (by decide) (by decide) rfl⟩

/-! ### C8 and C9: `target_mean_encode` -/

theorem lookup_map_self {β : Type} (F : String → β) (c : String) :
    ∀ l : List String, c ∈ l →
      List.lookup c (l.map (fun x => (x, F x))) = some (F c) := by
  intro l
  induction l with
  | nil => intro hc; exact absurd hc (List.not_mem_nil c)
  | cons a rest ih =>
    intro hc
    by_cases hca : c = a
    · subst hca
      simp [List.lookup]
    · have hmem2 : c ∈ rest := by
        rcases List.mem_cons.mp hc with h | h
        · exact absurd h hca
        · exact h
      have hbeq : (c == a) = false := beq_eq_false_iff_ne.mpr hca
      simp only [List.map_cons, List.lookup, hbeq]
      exact ih hmem2

theorem lookup_map_eq {β : Type} (F : String → β) (c : String) (v : β) :
    ∀ l : List String,
      List.lookup c (l.map (fun x => (x, F x))) = some v → v = F c := by
  intro l
  induction l with
  | nil => intro hc; exact Option.noConfusion hc
  | cons a rest ih =>
    intro hc
    by_cases hca : c = a
    · subst hca
      simp [List.lookup] at hc
      exact hc.symm
    · have hbeq : (c == a) = false := beq_eq_false_iff_ne.mpr hca
      simp only [List.map_cons, List.lookup, hbeq] at hc
      exact ih hc

/-- Claim C8 — counterexample.  The claim defines `n` as the *row count* of
the category, but the pandas `groupby(...).agg(["mean", "count"])` the code
relies on counts only the rows whose *target is present*.  In this dataset
category "A" has two rows, one with a missing target: the code returns
(1·4 + 1·2)/(1 + 1) = 3, while the formula of the claim gives
(2·4 + 1·2)/(2 + 1) = 10/3. -/
theorem target_mean_encode_claim_counterexample :
    (target_mean_encode ⟨3, [("c", Col.obj [some "A", some "A", some "B"]),
        ("t", Col.num [some 4, none, some 0])]⟩ "c" "t" 1).bind (List.lookup "A")
      = some (some 3) ∧
    smoothedScoreClaim [some "A", some "A", some "B"] [some 4, none, some 0] 1 "A"
      = 10 / 3 ∧
    (3 : ℚ) ≠ 10 / 3 := by
  refine ⟨?_, ?_, by norm_num⟩
  · have ht : getCol ⟨3, [("c", Col.obj [some "A", some "A", some "B"]),
        ("t", Col.num [some 4, none, some 0])]⟩ "t"
        = some (Col.num [some 4, none, some 0]) := rfl
    have hc : getCol ⟨3, [("c", Col.obj [some "A", some "A", some "B"]),
        ("t", Col.num [some 4, none, some 0])]⟩ "c"
        = some (Col.obj [some "A", some "A", some "B"]) := rfl
    simp only [target_mean_encode, ht, hc, Option.some_bind]
    have hcats : (List.filterMap id
        [some "A", some "A", some "B"]).dedup = ["A", "B"] := by decide
    rw [hcats, lookup_map_self _ "A" ["A", "B"] (by decide)]
    have hgt : groupTargets [some "A", some "A", some "B"] [some 4, none, some 0] "A"
        = [4] := by decide
    have hfm : List.filterMap id ([some 4, none, some 0] : List (Option ℚ)) = [4, 0] := by
      decide
    simp only [smoothCat, meanOpt, hgt, hfm]
    norm_num [meanList]
  · have hgt : groupTargets [some "A", some "A", some "B"] [some 4, none, some 0] "A"
        = [4] := by decide
    have hfm : List.filterMap id ([some 4, none, some 0] : List (Option ℚ)) = [4, 0] := by
      decide
    have hct : List.count (some "A") ([some "A", some "A", some "B"] :
        List (Option String)) = 2 := by decide
    simp only [smoothedScoreClaim, meanOpt, hgt, hfm, hct]
    norm_num [meanList]

/-- Claim C8 — amended.  `target_mean_encode` maps each category `c` present
in the grouping column to the smoothed score
`(n·mean + m·global_mean) / (n + m)` where `n` is the number of rows of the
category *whose target value is present*, `mean` is the mean of those
values, and `global_mean` is the mean of all present target values.  The
dataset is not mutated (the embedding is pure, matching the read-only
pandas pipeline). -/
theorem target_mean_encode_amended (frame : DataFrame) (column target : String) (m : ℚ)
    (tvs : List (Option ℚ)) (cvs : List (Option String)) (c : String) (mn g : ℚ)
    (ht : getCol frame target = some (Col.num tvs))
    (hc : getCol frame column = some (Col.obj cvs))
    (hcm : categoryTargetMean cvs tvs c = some mn)
    (hg : meanOpt tvs = some g)
    (hmem : c ∈ cvs.filterMap id) :
    (target_mean_encode frame column target m).bind (List.lookup c)
      = some (some ((((groupTargets cvs tvs c).length : ℚ) * mn + m * g)
        / (((groupTargets cvs tvs c).length : ℚ) + m))) := by
  simp only [target_mean_encode, ht, hc]
  rw [Option.some_bind]
  rw [lookup_map_self (smoothCat cvs tvs m (meanOpt tvs)) c ((cvs.filterMap id).dedup)
    (List.mem_dedup.mpr hmem)]
  have hml : meanList (groupTargets cvs tvs c) = some mn := hcm
  have hsc : smoothCat cvs tvs m (meanOpt tvs) c
      = some ((((groupTargets cvs tvs c).length : ℚ) * mn + m * g)
        / (((groupTargets cvs tvs c).length : ℚ) + m)) := by
    simp only [smoothCat]
    rw [hml, hg]
  rw [hsc]

/-- Witness for the amended C8 theorem: two categories, target values 2 and
6, smoothing weight 1; category "A" scores (1·2 + 1·4)/2 = 3. -/
theorem target_mean_encode_amended_witness :
    getCol ⟨2, [("c", Col.obj [some "A", some "B"]), ("t", Col.num [some 2, some 6])]⟩ "t"
      = some (Col.num [some 2, some 6]) ∧
    categoryTargetMean [some "A", some "B"] [some 2, some 6] "A" = some 2 ∧
    meanOpt [some 2, some 6] = some 4 ∧
    (target_mean_encode ⟨2, [("c", Col.obj [some "A", some "B"]),
        ("t", Col.num [some 2, some 6])]⟩ "c" "t" 1).bind (List.lookup "A")
      = some (some ((((groupTargets [some "A", some "B"] [some 2, some 6] "A").length : ℚ) * 2
          + 1 * 4)
        / (((groupTargets [some "A", some "B"] [some 2, some 6] "A").length : ℚ) + 1))) := by
  have h1 : getCol ⟨2, [("c", Col.obj [some "A", some "B"]),
      ("t", Col.num [some 2, some 6])]⟩ "t" = some (Col.num [some 2, some 6]) := rfl
  have h2 : getCol ⟨2, [("c", Col.obj [some "A", some "B"]),
      ("t", Col.num [some 2, some 6])]⟩ "c" = some (Col.obj [some "A", some "B"]) := rfl
  have h3 : categoryTargetMean [some "A", some "B"] [some 2, some 6] "A" = some 2 := by
    have hgt : groupTargets [some "A", some "B"] [some 2, some 6] "A" = [2] := by decide
    simp only [categoryTargetMean, hgt]
    norm_num [meanList]
  have h4 : meanOpt [some 2, some 6] = some 4 := by
    have hfm : List.filterMap id ([some 2, some 6] : List (Option ℚ)) = [2, 6] := by decide
    simp only [meanOpt, hfm]
    norm_num [meanList]
  have h5 : "A" ∈ ([some "A", some "B"] : List (Option String)).filterMap id := by decide
  exact ⟨h1, h3, h4, target_mean_encode_amended _ "c" "t" 1 [some 2, some 6]
    [some "A", some "B"] "A" 2 4 h1 h2 h3 h4 h5⟩

/-- Claim C9 — counterexample.  Category "A" has one row, so the claim
(which asks only for at least one row and `m > 0`) applies; but that row's
target is missing, so the group `count` is 0 and the group `mean` is `NaN`,
and the smoothed score the encoder produces for "A" is `NaN` (`none`): no
rational score exists, hence none lies between the category mean and the
global mean. -/
theorem target_mean_encode_between_counterexample :
    (target_mean_encode ⟨2, [("c", Col.obj [some "A", some "B"]),
        ("t", Col.num [none, some 5])]⟩ "c" "t" 1).bind (List.lookup "A")
      = some none ∧
    List.count (some "A") ([some "A", some "B"] : List (Option String)) = 1 ∧
    ((0:ℚ) < 1) ∧
    ∀ q : ℚ, (target_mean_encode ⟨2, [("c", Col.obj [some "A", some "B"]),
        ("t", Col.num [none, some 5])]⟩ "c" "t" 1).bind (List.lookup "A")
      ≠ some (some q) := by
  have ht : getCol ⟨2, [("c", Col.obj [some "A", some "B"]),
      ("t", Col.num [none, some 5])]⟩ "t" = some (Col.num [none, some 5]) := rfl
  have hc : getCol ⟨2, [("c", Col.obj [some "A", some "B"]),
      ("t", Col.num [none, some 5])]⟩ "c" = some (Col.obj [some "A", some "B"]) := rfl
  have hmain : (target_mean_encode ⟨2, [("c", Col.obj [some "A", some "B"]),
      ("t", Col.num [none, some 5])]⟩ "c" "t" 1).bind (List.lookup "A") = some none := by
    simp only [target_mean_encode, ht, hc, Option.some_bind]
    have hcats : (List.filterMap id [some "A", some "B"]).dedup = ["A", "B"] := by decide
    rw [hcats, lookup_map_self _ "A" ["A", "B"] (by decide)]
    have hgt : groupTargets [some "A", some "B"] [none, some 5] "A" = [] := by decide
    simp [smoothCat, hgt, meanList]
  refine ⟨hmain, by decide, by norm_num, ?_⟩
  intro q hq
  rw [hmain] at hq
  rw [Option.some_inj] at hq
  exact Option.noConfusion hq

/-- Claim C9 — amended.  For every category whose smoothed score is an
actual number (equivalently, a category with at least one row whose target
is present) and every smoothing weight `m > 0`, the score lies between the
category's own target mean and the global target mean inclusive, being the
convex combination `(n·mean + m·global)/(n + m)`. -/
theorem target_mean_encode_between_amended (frame : DataFrame) (column target : String)
    (m : ℚ) (tvs : List (Option ℚ)) (cvs : List (Option String)) (c : String)
    (mn g s : ℚ)
    (ht : getCol frame target = some (Col.num tvs))
    (hc : getCol frame column = some (Col.obj cvs))
    (hcm : categoryTargetMean cvs tvs c = some mn)
    (hg : meanOpt tvs = some g)
    (hs : (target_mean_encode frame column target m).bind (List.lookup c)
      = some (some s))
    (hm : 0 < m) :
    min mn g ≤ s ∧ s ≤ max mn g := by
  simp only [target_mean_encode, ht, hc, Option.some_bind] at hs
  have hval := lookup_map_eq (smoothCat cvs tvs m (meanOpt tvs)) c (some s)
    ((cvs.filterMap id).dedup) hs
  have hml : meanList (groupTargets cvs tvs c) = some mn := hcm
  have hsc : smoothCat cvs tvs m (meanOpt tvs) c
      = some ((((groupTargets cvs tvs c).length : ℚ) * mn + m * g)
        / (((groupTargets cvs tvs c).length : ℚ) + m)) := by
    simp only [smoothCat]
    rw [hml, hg]
  rw [hsc, Option.some_inj] at hval
  have hne : groupTargets cvs tvs c ≠ [] := by
    intro hnil
    rw [hnil] at hml
    exact Option.noConfusion hml
  have hn1 : 1 ≤ ((groupTargets cvs tvs c).length : ℚ) := by
    have : 1 ≤ (groupTargets cvs tvs c).length := List.length_pos.mpr hne
    exact_mod_cast this
  set n : ℚ := ((groupTargets cvs tvs c).length : ℚ) with hn
  have hden : 0 < n + m := by linarith
  subst hval
  rcases le_total mn g with hmg | hmg
  · rw [min_eq_left hmg, max_eq_right hmg]
    constructor
    · rw [le_div_iff hden]
      nlinarith
    · rw [div_le_iff hden]
      nlinarith
  · rw [min_eq_right hmg, max_eq_left hmg]
    constructor
    · rw [le_div_iff hden]
      nlinarith
    · rw [div_le_iff hden]
      nlinarith

/-- Witness for the amended C9 theorem: category "A" (mean 2) against global
mean 4 with m = 1 scores 3, which lies between 2 and 4. -/
theorem target_mean_encode_between_amended_witness :
    (target_mean_encode ⟨2, [("c", Col.obj [some "A", some "B"]),
        ("t", Col.num [some 2, some 6])]⟩ "c" "t" 1).bind (List.lookup "A")
      = some (some 3) ∧
    min (2:ℚ) 4 ≤ 3 ∧ (3:ℚ) ≤ max (2:ℚ) 4 := by
  have ht : getCol ⟨2, [("c", Col.obj [some "A", some "B"]),
      ("t", Col.num [some 2, some 6])]⟩ "t" = some (Col.num [some 2, some 6]) := rfl
  have hc : getCol ⟨2, [("c", Col.obj [some "A", some "B"]),
      ("t", Col.num [some 2, some 6])]⟩ "c" = some (Col.obj [some "A", some "B"]) := rfl
  have h3 : categoryTargetMean [some "A", some "B"] [some 2, some 6] "A" = some 2 := by
    have hgt : groupTargets [some "A", some "B"] [some 2, some 6] "A" = [2] := by decide
    simp only [categoryTargetMean, hgt]
    norm_num [meanList]
  have h4 : meanOpt [some 2, some 6] = some 4 := by
    have hfm : List.filterMap id ([some 2, some 6] : List (Option ℚ)) = [2, 6] := by decide
    simp only [meanOpt, hfm]
    norm_num [meanList]
  have hmain : (target_mean_encode ⟨2, [("c", Col.obj [some "A", some "B"]),
      ("t", Col.num [some 2, some 6])]⟩ "c" "t" 1).bind (List.lookup "A")
      = some (some 3) := by
    simp only [target_mean_encode, ht, hc, Option.some_bind]
    have hcats : (List.filterMap id [some "A", some "B"]).dedup = ["A", "B"] := by decide
    rw [hcats, lookup_map_self _ "A" ["A", "B"] (by decide)]
    have hgt : groupTargets [some "A", some "B"] [some 2, some 6] "A" = [2] := by decide
    have hfm : List.filterMap id ([some 2, some 6] : List (Option ℚ)) = [2, 6] := by decide
    simp only [smoothCat, meanOpt, hgt, hfm]
    norm_num [meanList]
  exact ⟨hmain, target_mean_encode_between_amended ⟨2, [("c", Col.obj [some "A", some "B"]),
    ("t", Col.num [some 2, some 6])]⟩ "c" "t" 1 [some 2, some 6] [some "A", some "B"]
    "A" 2 4 3 ht hc h3 h4 hmain (by norm_num)⟩
